import Mathlib

/-!
Verification of the attenuation-step mapping of the Mezmerize B1 controller
firmware (src/src/main.cpp, function getAttenuation).

The C++ source computes, for unsigned 8-bit inputs steps, selStep, min_dB,
max_dB:

  float att_dB = max_dB - min_dB;
  float sizeOfLargeSteps = round(pow(2.0, att_dB / steps) - 0.5);
  float numberOfSmallSteps =
      (sizeOfLargeSteps * steps - att_dB) / (sizeOfLargeSteps / 2);
  if (steps >= numberOfSmallSteps && selStep <= steps && sizeOfLargeSteps <= 4)
    return (max_dB - ((min(selStep, numberOfSmallSteps) * (sizeOfLargeSteps / 2)
            + max((selStep - numberOfSmallSteps), 0) * sizeOfLargeSteps))) * 2;
  else
    return 223;

We embed the computation in exact arithmetic (over Nat and Rat):
for x >= 1/2 one has round(x - 0.5) = floor(x) (round rounds half away from
zero, and the tie x - 0.5 = k + 1/2 happens exactly when x is an integer,
where both sides give x), so sizeOfLargeSteps = floor(2 ^ (att_dB / steps)),
which for natural att_dB and steps >= 1 is the greatest m with
m ^ steps <= 2 ^ att_dB.  The float special cases are modelled explicitly:

* steps = 0: att_dB / 0 is an infinity or NaN, propagating to NaN or
  infinite numberOfSmallSteps, so every comparison chain fails and the
  function returns 223;
* max_dB < min_dB: att_dB < 0 (uint8_t operands are promoted to int), so
  2 ^ (att_dB / steps) < 1 and sizeOfLargeSteps rounds to 0; the division
  by sizeOfLargeSteps / 2 = 0 with positive numerator yields +infinity,
  the comparison steps >= numberOfSmallSteps fails, and 223 is returned.

The final conversion of the float result to uint8_t truncates toward zero
and keeps the low 8 bits (the value is a non-negative integer whenever the
feasible branch is taken); we model it as floor followed by reduction
mod 256.
-/

namespace Mezmerize

/-- Exact-arithmetic value of the local float variable sizeOfLargeSteps of
getAttenuation (src/src/main.cpp line 462) for non-negative att_dB = r and
steps >= 1: round(pow(2.0, r / steps) - 0.5) = floor(2 ^ (r / steps)), the
greatest m with m ^ steps <= 2 ^ r.  (2 ^ (r / steps + 1) is an upper bound
for the search since r / steps + 1 > r / steps in the rationals.) -/
def coarseStepSize (r steps : ℕ) : ℕ :=
  Nat.findGreatest (fun m => m ^ steps ≤ 2 ^ r) (2 ^ (r / steps + 1))

/-- Exact-arithmetic value of the local float variable numberOfSmallSteps of
getAttenuation (src/src/main.cpp line 463), for non-negative att_dB = r and
steps >= 1. -/
def fineStepCountQ (r steps : ℕ) : ℚ :=
  ((coarseStepSize r steps : ℚ) * steps - (r : ℚ)) /
    ((coarseStepSize r steps : ℚ) / 2)

/-- Shallow embedding of getAttenuation (src/src/main.cpp lines 458-477) in
exact arithmetic.  The two guard cases steps = 0 and max_dB < min_dB model
the float special values as explained in the file header: both make the
feasibility test fail, returning the mute sentinel 223.  The final
conversion to uint8_t is modelled as floor (the value in the feasible
branch is a non-negative integer, where truncation and floor agree)
followed by reduction mod 256. -/
def getAttenuation (steps selStep min_dB max_dB : ℕ) : ℕ :=
  if steps = 0 ∨ max_dB < min_dB then 223
  else
    let c : ℕ := coarseStepSize (max_dB - min_dB) steps
    let nss : ℚ := fineStepCountQ (max_dB - min_dB) steps
    if (steps : ℚ) ≥ nss ∧ selStep ≤ steps ∧ c ≤ 4 then
      (((max_dB : ℚ) - (min (selStep : ℚ) nss * ((c : ℚ) / 2)
          + max ((selStep : ℚ) - nss) 0 * (c : ℚ))) * 2).floor.toNat % 256
    else 223

/-! ### Characterisation of coarseStepSize -/

lemma ratFloor_eq_floor (q : ℚ) : q.floor = ⌊q⌋ :=
  (Rat.floor_def' q).trans Rat.floor_def.symm

lemma coarse_pos (r steps : ℕ) : 1 ≤ coarseStepSize r steps := by
  unfold coarseStepSize
  exact Nat.le_findGreatest (Nat.two_pow_pos _)
    (by show (1:ℕ) ^ steps ≤ 2 ^ r
        rw [one_pow]; exact Nat.two_pow_pos r)

lemma coarse_pow_le (r steps : ℕ) : coarseStepSize r steps ^ steps ≤ 2 ^ r := by
  unfold coarseStepSize
  exact Nat.findGreatest_spec (P := fun m => m ^ steps ≤ 2 ^ r) (m := 1) (Nat.two_pow_pos _)
    (by show (1:ℕ) ^ steps ≤ 2 ^ r
        rw [one_pow]; exact Nat.two_pow_pos r)

lemma lt_coarse_succ_pow (r : ℕ) {steps : ℕ} (hs : 1 ≤ steps) :
    2 ^ r < (coarseStepSize r steps + 1) ^ steps := by
  by_contra hcon
  push_neg at hcon
  have hbound : ¬ ((2 ^ (r / steps + 1)) ^ steps ≤ 2 ^ r) := by
    rw [← pow_mul]
    intro hle
    have h1 : r < (r / steps + 1) * steps := by
      calc r = steps * (r / steps) + r % steps := (Nat.div_add_mod r steps).symm
        _ < steps * (r / steps) + steps := by
            have := Nat.mod_lt r (show 0 < steps from hs)
            omega
        _ = (r / steps + 1) * steps := by ring
    have h2 : 2 ^ r < 2 ^ ((r / steps + 1) * steps) := pow_lt_pow_right₀ (by norm_num) h1
    omega
  have hle : coarseStepSize r steps + 1 ≤ 2 ^ (r / steps + 1) := by
    have h3 : coarseStepSize r steps ≤ 2 ^ (r / steps + 1) := Nat.findGreatest_le _
    rcases Nat.lt_or_ge (coarseStepSize r steps) (2 ^ (r / steps + 1)) with h | h
    · omega
    · exact absurd ((le_antisymm h3 h) ▸ coarse_pow_le r steps) hbound
  exact Nat.findGreatest_is_greatest (Nat.lt_succ_self _) hle hcon

lemma lt_coarse_mul (r : ℕ) {steps : ℕ} (hs : 1 ≤ steps) :
    r < coarseStepSize r steps * steps := by
  have h1 : 2 ^ r < (coarseStepSize r steps + 1) ^ steps := lt_coarse_succ_pow r hs
  have h2 : (coarseStepSize r steps + 1) ^ steps ≤ (2 ^ coarseStepSize r steps) ^ steps :=
    Nat.pow_le_pow_left (Nat.lt_two_pow _) steps
  rw [← pow_mul] at h2
  by_contra hcon
  push_neg at hcon
  have h3 : 2 ^ (coarseStepSize r steps * steps) ≤ 2 ^ r :=
    Nat.pow_le_pow_right (by norm_num) hcon
  omega

/-! ### Comparisons against fineStepCountQ in integer form -/

lemma le_fineStepCount_iff {r steps : ℕ} (k : ℕ) (hs : 1 ≤ steps) :
    (k : ℚ) ≤ fineStepCountQ r steps ↔
      coarseStepSize r steps * k ≤ 2 * (coarseStepSize r steps * steps - r) := by
  have hc : 1 ≤ coarseStepSize r steps := coarse_pos r steps
  have hr : r ≤ coarseStepSize r steps * steps := (lt_coarse_mul r hs).le
  have hcq : (0:ℚ) < (coarseStepSize r steps : ℚ) / 2 := by
    have : (0:ℚ) < (coarseStepSize r steps : ℚ) := by exact_mod_cast hc
    linarith
  rw [fineStepCountQ, le_div_iff₀ hcq]
  have hcast : ((2 * (coarseStepSize r steps * steps - r) : ℕ) : ℚ)
      = 2 * ((coarseStepSize r steps : ℚ) * steps - (r:ℚ)) := by
    push_cast [hr]
    ring
  constructor
  · intro h
    have h2 : ((coarseStepSize r steps * k : ℕ) : ℚ)
        ≤ ((2 * (coarseStepSize r steps * steps - r) : ℕ) : ℚ) := by
      rw [hcast]
      push_cast
      linarith
    exact_mod_cast h2
  · intro h
    have h2 : ((coarseStepSize r steps * k : ℕ) : ℚ)
        ≤ ((2 * (coarseStepSize r steps * steps - r) : ℕ) : ℚ) := by exact_mod_cast h
    rw [hcast] at h2
    push_cast at h2
    linarith

lemma fineStepCount_le_iff {r steps : ℕ} (k : ℕ) (hs : 1 ≤ steps) :
    fineStepCountQ r steps ≤ (k : ℚ) ↔
      2 * (coarseStepSize r steps * steps - r) ≤ coarseStepSize r steps * k := by
  have hc : 1 ≤ coarseStepSize r steps := coarse_pos r steps
  have hr : r ≤ coarseStepSize r steps * steps := (lt_coarse_mul r hs).le
  have hcq : (0:ℚ) < (coarseStepSize r steps : ℚ) / 2 := by
    have : (0:ℚ) < (coarseStepSize r steps : ℚ) := by exact_mod_cast hc
    linarith
  rw [fineStepCountQ, div_le_iff₀ hcq]
  have hcast : ((2 * (coarseStepSize r steps * steps - r) : ℕ) : ℚ)
      = 2 * ((coarseStepSize r steps : ℚ) * steps - (r:ℚ)) := by
    push_cast [hr]
    ring
  constructor
  · intro h
    have h2 : ((2 * (coarseStepSize r steps * steps - r) : ℕ) : ℚ)
        ≤ ((coarseStepSize r steps * k : ℕ) : ℚ) := by
      rw [hcast]
      push_cast
      linarith
    exact_mod_cast h2
  · intro h
    have h2 : ((2 * (coarseStepSize r steps * steps - r) : ℕ) : ℚ)
        ≤ ((coarseStepSize r steps * k : ℕ) : ℚ) := by exact_mod_cast h
    rw [hcast] at h2
    push_cast at h2
    linarith

lemma feas_nat {r steps : ℕ} (hs : 1 ≤ steps)
    (h : fineStepCountQ r steps ≤ (steps : ℚ)) :
    coarseStepSize r steps * steps ≤ 2 * r := by
  have h2 := (fineStepCount_le_iff steps hs).mp h
  have hr : r ≤ coarseStepSize r steps * steps := (lt_coarse_mul r hs).le
  set a := coarseStepSize r steps * steps
  omega

lemma feas_rat {r steps : ℕ} (hs : 1 ≤ steps)
    (h : coarseStepSize r steps * steps ≤ 2 * r) :
    fineStepCountQ r steps ≤ (steps : ℚ) := by
  rw [fineStepCount_le_iff steps hs]
  have hr : r ≤ coarseStepSize r steps * steps := (lt_coarse_mul r hs).le
  set a := coarseStepSize r steps * steps
  omega

lemma fineStepCount_nonneg {r steps : ℕ} (hs : 1 ≤ steps) :
    0 ≤ fineStepCountQ r steps := by
  have := (le_fineStepCount_iff 0 hs (r := r)).mpr (by simp)
  simpa using this

/-! ### Closed form of the feasible branch -/

lemma arithA {b a r M m : ℕ} (h1 : b ≤ 2 * (a - r)) (h2 : a ≤ 2 * r) (h3 : r ≤ a)
    (h4 : r = M - m) (h5 : m ≤ M) : b ≤ 2 * M := by omega

lemma arithB {b a r M m : ℕ} (h2 : a ≤ 2 * r) (h3 : r ≤ a) (h4 : b ≤ a)
    (h5 : r = M - m) (h6 : m ≤ M) :
    2 * m ≤ (if b ≤ 2 * (a - r) then 2 * M - b else 2 * m + 2 * (a - b)) ∧
      (if b ≤ 2 * (a - r) then 2 * M - b else 2 * m + 2 * (a - b)) ≤ 2 * M := by
  split_ifs with h <;> omega

lemma att_expr_eq (steps selStep min_dB max_dB : ℕ) (hs : 1 ≤ steps)
    (hm : min_dB ≤ max_dB)
    (hfeas : coarseStepSize (max_dB - min_dB) steps * steps ≤ 2 * (max_dB - min_dB))
    (hsel : selStep ≤ steps) :
    ((max_dB : ℚ) - (min (selStep : ℚ) (fineStepCountQ (max_dB - min_dB) steps)
        * ((coarseStepSize (max_dB - min_dB) steps : ℚ) / 2)
      + max ((selStep : ℚ) - fineStepCountQ (max_dB - min_dB) steps) 0
        * (coarseStepSize (max_dB - min_dB) steps : ℚ))) * 2
    = (((if coarseStepSize (max_dB - min_dB) steps * selStep ≤
            2 * (coarseStepSize (max_dB - min_dB) steps * steps - (max_dB - min_dB))
        then 2 * max_dB - coarseStepSize (max_dB - min_dB) steps * selStep
        else 2 * min_dB + 2 * (coarseStepSize (max_dB - min_dB) steps * steps
              - coarseStepSize (max_dB - min_dB) steps * selStep)) : ℕ) : ℚ) := by
  have hc1 : 1 ≤ coarseStepSize (max_dB - min_dB) steps := coarse_pos _ steps
  have hrc : max_dB - min_dB < coarseStepSize (max_dB - min_dB) steps * steps :=
    lt_coarse_mul _ hs
  have hcq : (0:ℚ) < (coarseStepSize (max_dB - min_dB) steps : ℚ) := by
    exact_mod_cast hc1
  have hcsel : coarseStepSize (max_dB - min_dB) steps * selStep
      ≤ coarseStepSize (max_dB - min_dB) steps * steps := Nat.mul_le_mul_left _ hsel
  by_cases hcase : coarseStepSize (max_dB - min_dB) steps * selStep ≤
      2 * (coarseStepSize (max_dB - min_dB) steps * steps - (max_dB - min_dB))
  · have hsq : (selStep : ℚ) ≤ fineStepCountQ (max_dB - min_dB) steps :=
      (le_fineStepCount_iff selStep hs).mpr hcase
    rw [if_pos hcase, min_eq_left hsq,
      max_eq_right
        (by linarith : (selStep:ℚ) - fineStepCountQ (max_dB - min_dB) steps ≤ 0),
      zero_mul, add_zero]
    have hb : coarseStepSize (max_dB - min_dB) steps * selStep ≤ 2 * max_dB :=
      arithA hcase hfeas hrc.le rfl hm
    rw [Nat.cast_sub hb]
    push_cast
    ring
  · have hsq : fineStepCountQ (max_dB - min_dB) steps ≤ (selStep : ℚ) := by
      rw [fineStepCount_le_iff selStep hs]
      exact (Nat.not_le.mp hcase).le
    rw [if_neg hcase, min_eq_right hsq,
      max_eq_left
        (by linarith : (0:ℚ) ≤ (selStep:ℚ) - fineStepCountQ (max_dB - min_dB) steps)]
    have hR : ((2 * min_dB + 2 * (coarseStepSize (max_dB - min_dB) steps * steps
          - coarseStepSize (max_dB - min_dB) steps * selStep) : ℕ) : ℚ)
        = 2 * (min_dB:ℚ) + 2 * ((coarseStepSize (max_dB - min_dB) steps : ℚ) * steps
          - (coarseStepSize (max_dB - min_dB) steps : ℚ) * selStep) := by
      push_cast [Nat.cast_sub hcsel]
      ring
    rw [hR, fineStepCountQ, Nat.cast_sub hm]
    field_simp
    ring

lemma getAttenuation_eq_closed (steps selStep min_dB max_dB : ℕ) (hs : 1 ≤ steps)
    (hm : min_dB ≤ max_dB)
    (hfeasQ : fineStepCountQ (max_dB - min_dB) steps ≤ (steps : ℚ))
    (hsel : selStep ≤ steps)
    (hc4 : coarseStepSize (max_dB - min_dB) steps ≤ 4) :
    getAttenuation steps selStep min_dB max_dB =
      (if coarseStepSize (max_dB - min_dB) steps * selStep ≤
            2 * (coarseStepSize (max_dB - min_dB) steps * steps - (max_dB - min_dB))
        then 2 * max_dB - coarseStepSize (max_dB - min_dB) steps * selStep
        else 2 * min_dB + 2 * (coarseStepSize (max_dB - min_dB) steps * steps
              - coarseStepSize (max_dB - min_dB) steps * selStep)) % 256 := by
  have hguard : ¬ (steps = 0 ∨ max_dB < min_dB) := by omega
  simp only [getAttenuation]
  rw [if_neg hguard, if_pos ⟨hfeasQ, hsel, hc4⟩]
  rw [att_expr_eq steps selStep min_dB max_dB hs hm (feas_nat hs hfeasQ) hsel]
  rw [ratFloor_eq_floor, Int.floor_natCast, Int.toNat_natCast]

lemma closed_val_bounds (steps selStep min_dB max_dB : ℕ) (hs : 1 ≤ steps)
    (hm : min_dB ≤ max_dB)
    (hfeasQ : fineStepCountQ (max_dB - min_dB) steps ≤ (steps : ℚ))
    (hsel : selStep ≤ steps) :
    2 * min_dB ≤
      (if coarseStepSize (max_dB - min_dB) steps * selStep ≤
            2 * (coarseStepSize (max_dB - min_dB) steps * steps - (max_dB - min_dB))
        then 2 * max_dB - coarseStepSize (max_dB - min_dB) steps * selStep
        else 2 * min_dB + 2 * (coarseStepSize (max_dB - min_dB) steps * steps
              - coarseStepSize (max_dB - min_dB) steps * selStep)) ∧
      (if coarseStepSize (max_dB - min_dB) steps * selStep ≤
            2 * (coarseStepSize (max_dB - min_dB) steps * steps - (max_dB - min_dB))
        then 2 * max_dB - coarseStepSize (max_dB - min_dB) steps * selStep
        else 2 * min_dB + 2 * (coarseStepSize (max_dB - min_dB) steps * steps
              - coarseStepSize (max_dB - min_dB) steps * selStep)) ≤ 2 * max_dB :=
  arithB (feas_nat hs hfeasQ) (lt_coarse_mul _ hs).le (Nat.mul_le_mul_left _ hsel) rfl hm

lemma getAttenuation_feasible (steps selStep min_dB max_dB : ℕ) (hs : 1 ≤ steps)
    (hm : min_dB ≤ max_dB) (hM : max_dB ≤ 127)
    (hfeasQ : fineStepCountQ (max_dB - min_dB) steps ≤ (steps : ℚ))
    (hsel : selStep ≤ steps)
    (hc4 : coarseStepSize (max_dB - min_dB) steps ≤ 4) :
    getAttenuation steps selStep min_dB max_dB =
      (if coarseStepSize (max_dB - min_dB) steps * selStep ≤
            2 * (coarseStepSize (max_dB - min_dB) steps * steps - (max_dB - min_dB))
        then 2 * max_dB - coarseStepSize (max_dB - min_dB) steps * selStep
        else 2 * min_dB + 2 * (coarseStepSize (max_dB - min_dB) steps * steps
              - coarseStepSize (max_dB - min_dB) steps * selStep)) := by
  rw [getAttenuation_eq_closed steps selStep min_dB max_dB hs hm hfeasQ hsel hc4]
  apply Nat.mod_eq_of_lt
  have hb := closed_val_bounds steps selStep min_dB max_dB hs hm hfeasQ hsel
  omega

lemma arithC {a r M m b1 b2 : ℕ} (h2 : a ≤ 2 * r) (h3 : r ≤ a) (h12 : b1 ≤ b2)
    (h2a : b2 ≤ a) (h5 : r = M - m) (h6 : m ≤ M) :
    (if b2 ≤ 2 * (a - r) then 2 * M - b2 else 2 * m + 2 * (a - b2)) ≤
      (if b1 ≤ 2 * (a - r) then 2 * M - b1 else 2 * m + 2 * (a - b1)) := by
  split_ifs with hA hB hB <;> omega

lemma arithD {a r M m : ℕ} (h2 : a ≤ 2 * r) (h3 : r ≤ a) (h5 : r = M - m)
    (h6 : m ≤ M) :
    (if a ≤ 2 * (a - r) then 2 * M - a else 2 * m + 2 * (a - a)) = 2 * m := by
  split_ifs with h <;> omega

lemma getAttenuation_mute_of_infeasible (steps selStep min_dB max_dB : ℕ)
    (hs : 1 ≤ steps) (hm : min_dB ≤ max_dB)
    (hbad : (steps : ℚ) < fineStepCountQ (max_dB - min_dB) steps ∨ steps < selStep ∨
      4 < coarseStepSize (max_dB - min_dB) steps) :
    getAttenuation steps selStep min_dB max_dB = 223 := by
  simp only [getAttenuation]
  rw [if_neg (by omega : ¬(steps = 0 ∨ max_dB < min_dB))]
  have hnc : ¬ ((steps : ℚ) ≥ fineStepCountQ (max_dB - min_dB) steps ∧
      selStep ≤ steps ∧ coarseStepSize (max_dB - min_dB) steps ≤ 4) := by
    rintro ⟨h1, h2, h3⟩
    rcases hbad with h | h | h
    · exact absurd h1 (not_le.mpr h)
    · omega
    · omega
  rw [if_neg hnc]

/-! ### Claim theorems -/

/-- C1 (amended): for steps >= 1, min_dB < max_dB with max_dB <= 127 (so that
the result fits the uint8_t return value), if steps >= fineStepCount,
selStep <= steps and coarseStepSize <= 4, then getAttenuation returns
(max_dB - (min(selStep, fineStepCount) * (coarseStepSize / 2)
 + max(selStep - fineStepCount, 0) * coarseStepSize)) * 2. -/
theorem getAttenuation_formula (steps selStep min_dB max_dB : ℕ)
    (hs : 1 ≤ steps) (hm : min_dB < max_dB) (hM : max_dB ≤ 127)
    (hfeas : fineStepCountQ (max_dB - min_dB) steps ≤ (steps : ℚ))
    (hsel : selStep ≤ steps)
    (hc4 : coarseStepSize (max_dB - min_dB) steps ≤ 4) :
    (getAttenuation steps selStep min_dB max_dB : ℚ) =
      ((max_dB : ℚ) - (min (selStep : ℚ) (fineStepCountQ (max_dB - min_dB) steps)
          * ((coarseStepSize (max_dB - min_dB) steps : ℚ) / 2)
        + max ((selStep : ℚ) - fineStepCountQ (max_dB - min_dB) steps) 0
          * (coarseStepSize (max_dB - min_dB) steps : ℚ))) * 2 := by
  rw [getAttenuation_feasible steps selStep min_dB max_dB hs hm.le hM hfeas hsel hc4]
  rw [att_expr_eq steps selStep min_dB max_dB hs hm.le (feas_nat hs hfeas) hsel]

/-- C2: within the documented boundary (1 <= steps <= 179, min_dB < max_dB <= 90),
getAttenuation returns the MUTE sentinel 223 iff a feasibility condition fails:
steps < fineStepCount, or selStep > steps, or coarseStepSize > 4. -/
theorem getAttenuation_mute_iff (steps selStep min_dB max_dB : ℕ)
    (hs : 1 ≤ steps) (hs2 : steps ≤ 179) (hm : min_dB < max_dB) (hM : max_dB ≤ 90) :
    getAttenuation steps selStep min_dB max_dB = 223 ↔
      ((steps : ℚ) < fineStepCountQ (max_dB - min_dB) steps ∨
        steps < selStep ∨ 4 < coarseStepSize (max_dB - min_dB) steps) := by
  constructor
  · intro h223
    by_contra hcon
    push_neg at hcon
    obtain ⟨h1, h2, h3⟩ := hcon
    have hclosed := getAttenuation_eq_closed steps selStep min_dB max_dB hs hm.le h1 h2 h3
    have hb := closed_val_bounds steps selStep min_dB max_dB hs hm.le h1 h2
    rw [hclosed] at h223
    omega
  · exact getAttenuation_mute_of_infeasible steps selStep min_dB max_dB hs hm.le

/-- C3 (amended): for a fixed feasible profile with max_dB <= 127 (so that no
returned code wraps around the uint8_t range), getAttenuation is monotonically
non-increasing in the selected step over [0, steps]. -/
theorem getAttenuation_antitone (steps s1 s2 min_dB max_dB : ℕ)
    (hs : 1 ≤ steps) (hm : min_dB < max_dB) (hM : max_dB ≤ 127)
    (hfeas : fineStepCountQ (max_dB - min_dB) steps ≤ (steps : ℚ))
    (hc4 : coarseStepSize (max_dB - min_dB) steps ≤ 4)
    (h12 : s1 ≤ s2) (h2s : s2 ≤ steps) :
    getAttenuation steps s2 min_dB max_dB ≤ getAttenuation steps s1 min_dB max_dB := by
  rw [getAttenuation_feasible steps s1 min_dB max_dB hs hm.le hM hfeas (h12.trans h2s) hc4,
      getAttenuation_feasible steps s2 min_dB max_dB hs hm.le hM hfeas h2s hc4]
  exact arithC (feas_nat hs hfeas) (lt_coarse_mul _ hs).le
    (Nat.mul_le_mul_left _ h12) (Nat.mul_le_mul_left _ h2s) rfl hm.le

/-- C4 (amended): for a valid profile (steps >= 1, min_dB < max_dB <= 90) with
coarseStepSize <= 4 and, additionally, fineStepCount <= steps (without which
the function returns the mute sentinel instead), getAttenuation at step 0
returns max_dB * 2. -/
theorem getAttenuation_at_step_zero (steps min_dB max_dB : ℕ)
    (hs : 1 ≤ steps) (hm : min_dB < max_dB) (hM : max_dB ≤ 90)
    (hc4 : coarseStepSize (max_dB - min_dB) steps ≤ 4)
    (hfeas : fineStepCountQ (max_dB - min_dB) steps ≤ (steps : ℚ)) :
    getAttenuation steps 0 min_dB max_dB = max_dB * 2 := by
  rw [getAttenuation_feasible steps 0 min_dB max_dB hs hm.le (by omega) hfeas
    (Nat.zero_le _) hc4]
  rw [if_pos (by simp)]
  omega

/-- C5 (amended): for a feasible input with, additionally, min_dB <= 127 (so
that the result fits the uint8_t return value), getAttenuation at
selStep = steps returns min_dB * 2. -/
theorem getAttenuation_at_step_top (steps min_dB max_dB : ℕ)
    (hs : 1 ≤ steps) (hm : min_dB < max_dB) (hm127 : min_dB ≤ 127)
    (hc4 : coarseStepSize (max_dB - min_dB) steps ≤ 4)
    (hfeas : fineStepCountQ (max_dB - min_dB) steps ≤ (steps : ℚ)) :
    getAttenuation steps steps min_dB max_dB = min_dB * 2 := by
  rw [getAttenuation_eq_closed steps steps min_dB max_dB hs hm.le hfeas le_rfl hc4]
  rw [arithD (feas_nat hs hfeas) (lt_coarse_mul _ hs).le rfl hm.le]
  rw [Nat.mod_eq_of_lt (by omega)]
  omega

/-- C6 (amended): for a valid profile passing the feasibility policy, the
derived coarseStepSize is an integer >= 1 and fineStepCount is a rational
(not necessarily integral) number lying in [0, steps]. -/
theorem fineStepCount_range (steps min_dB max_dB : ℕ)
    (hs : 1 ≤ steps) (hm : min_dB < max_dB) (hM : max_dB ≤ 90)
    (hc4 : coarseStepSize (max_dB - min_dB) steps ≤ 4)
    (hfeas : fineStepCountQ (max_dB - min_dB) steps ≤ (steps : ℚ)) :
    1 ≤ coarseStepSize (max_dB - min_dB) steps ∧
      0 ≤ fineStepCountQ (max_dB - min_dB) steps ∧
      fineStepCountQ (max_dB - min_dB) steps ≤ (steps : ℚ) :=
  ⟨coarse_pos _ _, fineStepCount_nonneg hs, hfeas⟩

/-- C7: the concrete scenario steps = 60, minDb = 0, maxDb = 60 gives result
120 at selectedStep = 0 and result 0 at selectedStep = 60. -/
theorem getAttenuation_scenario :
    getAttenuation 60 0 0 60 = 120 ∧ getAttenuation 60 60 0 60 = 0 := by
  have hfq : fineStepCountQ (60 - 0) 60 ≤ ((60:ℕ) : ℚ) :=
    feas_rat (by norm_num) (by decide)
  constructor
  · rw [getAttenuation_eq_closed 60 0 0 60 (by norm_num) (by norm_num) hfq
      (by norm_num) (by decide)]
    decide
  · rw [getAttenuation_eq_closed 60 60 0 60 (by norm_num) (by norm_num) hfq
      (by norm_num) (by decide)]
    decide

/-- C8: getAttenuation is deterministic and depends on nothing but its four
arguments: calls with equal arguments give equal results (the embedding is a
pure function of exactly these four values; the C++ function reads and
writes no global state). -/
theorem getAttenuation_deterministic
    (steps selStep min_dB max_dB steps' selStep' min_dB' max_dB' : ℕ)
    (h1 : steps = steps') (h2 : selStep = selStep')
    (h3 : min_dB = min_dB') (h4 : max_dB = max_dB') :
    getAttenuation steps selStep min_dB max_dB
      = getAttenuation steps' selStep' min_dB' max_dB' := by
  subst h1 h2 h3 h4
  rfl

/-- C9: for min_dB = max_dB (zero range) the derived coarseStepSize is 1 and
fineStepCount is 2 * steps > steps, so the feasibility check fails and
getAttenuation returns the MUTE sentinel 223, for every steps >= 1 and every
selStep. -/
theorem getAttenuation_degenerate_range (steps selStep min_dB : ℕ)
    (hs : 1 ≤ steps) :
    coarseStepSize (min_dB - min_dB) steps = 1 ∧
      fineStepCountQ (min_dB - min_dB) steps = 2 * steps ∧
      getAttenuation steps selStep min_dB min_dB = 223 := by
  have h0 : min_dB - min_dB = 0 := Nat.sub_self min_dB
  have hc : coarseStepSize 0 steps = 1 := by
    have h1 : 1 ≤ coarseStepSize 0 steps := coarse_pos 0 steps
    have h2 : coarseStepSize 0 steps ^ steps ≤ 2 ^ 0 := coarse_pow_le 0 steps
    by_contra hne
    have h3 : 2 ≤ coarseStepSize 0 steps := by omega
    have h4 : 2 ^ steps ≤ coarseStepSize 0 steps ^ steps := Nat.pow_le_pow_left h3 steps
    have h5 : 2 ^ 1 ≤ 2 ^ steps := Nat.pow_le_pow_right (by norm_num) hs
    simp only [pow_zero] at h2
    omega
  have hnss : fineStepCountQ 0 steps = 2 * steps := by
    rw [fineStepCountQ, hc]
    push_cast
    ring
  refine ⟨h0 ▸ hc, h0 ▸ hnss, ?_⟩
  simp only [getAttenuation]
  rw [if_neg (by omega : ¬(steps = 0 ∨ min_dB < min_dB)), h0]
  have hnc : ¬ ((steps : ℚ) ≥ fineStepCountQ 0 steps ∧
      selStep ≤ steps ∧ coarseStepSize 0 steps ≤ 4) := by
    rintro ⟨hge, -, -⟩
    rw [hnss] at hge
    have h1q : (1:ℚ) ≤ (steps:ℚ) := by exact_mod_cast hs
    linarith
  rw [if_neg hnc]

/-- C10: for a feasible input with max_dB <= 90, the returned code lies in
[2 * min_dB, 2 * max_dB], hence is at most 180, fits the uint8_t return type
without truncation, and never collides with the MUTE sentinel 223. -/
theorem getAttenuation_code_in_range (steps selStep min_dB max_dB : ℕ)
    (hs : 1 ≤ steps) (hm : min_dB < max_dB) (hM : max_dB ≤ 90)
    (hfeas : fineStepCountQ (max_dB - min_dB) steps ≤ (steps : ℚ))
    (hsel : selStep ≤ steps)
    (hc4 : coarseStepSize (max_dB - min_dB) steps ≤ 4) :
    2 * min_dB ≤ getAttenuation steps selStep min_dB max_dB ∧
      getAttenuation steps selStep min_dB max_dB ≤ 2 * max_dB ∧
      getAttenuation steps selStep min_dB max_dB ≤ 180 ∧
      getAttenuation steps selStep min_dB max_dB ≠ 223 := by
  rw [getAttenuation_feasible steps selStep min_dB max_dB hs hm.le (by omega) hfeas
    hsel hc4]
  have hb := closed_val_bounds steps selStep min_dB max_dB hs hm.le hfeas hsel
  omega

/-! ### Counterexamples for the corrected claims -/

/-- C1 counterexample: at steps = 128, selStep = 0, min_dB = 0, max_dB = 255
all hypotheses of the original claim hold and the claimed value is 510, but
getAttenuation returns 254: the out-of-range value does not survive the
uint8_t return. -/
theorem getAttenuation_formula_cex :
    (1:ℕ) ≤ 128 ∧ (0:ℕ) < 255 ∧
      fineStepCountQ (255 - 0) 128 ≤ ((128:ℕ) : ℚ) ∧ (0:ℕ) ≤ 128 ∧
      coarseStepSize (255 - 0) 128 ≤ 4 ∧
      (((255:ℕ) : ℚ) - (min ((0:ℕ) : ℚ) (fineStepCountQ (255 - 0) 128)
          * ((coarseStepSize (255 - 0) 128 : ℚ) / 2)
        + max (((0:ℕ) : ℚ) - fineStepCountQ (255 - 0) 128) 0
          * (coarseStepSize (255 - 0) 128 : ℚ))) * 2 = 510 ∧
      getAttenuation 128 0 0 255 ≠ 510 ∧ getAttenuation 128 0 0 255 = 254 := by
  have h254 : getAttenuation 128 0 0 255 = 254 := by
    rw [getAttenuation_eq_closed 128 0 0 255 (by norm_num) (by norm_num)
      (feas_rat (by norm_num) (by decide)) (by norm_num) (by decide)]
    decide
  refine ⟨by norm_num, by norm_num, feas_rat (by norm_num) (by decide), by norm_num,
    by decide, ?_, by omega, h254⟩
  rw [fineStepCountQ, (by decide : coarseStepSize (255 - 0) 128 = 3)]
  norm_num [min_def, max_def]

/-- C3 counterexample: the profile steps = 128, min_dB = 0, max_dB = 255 is
feasible, yet the returned code jumps from 2 at selStep = 84 up to 255 at
selStep = 85, because the underlying value crosses 256 and wraps in the
uint8_t return; monotonicity fails. -/
theorem getAttenuation_antitone_cex :
    (1:ℕ) ≤ 128 ∧ (0:ℕ) < 255 ∧
      fineStepCountQ (255 - 0) 128 ≤ ((128:ℕ) : ℚ) ∧
      coarseStepSize (255 - 0) 128 ≤ 4 ∧ (84:ℕ) ≤ 85 ∧ (85:ℕ) ≤ 128 ∧
      getAttenuation 128 84 0 255 = 2 ∧ getAttenuation 128 85 0 255 = 255 ∧
      ¬ (getAttenuation 128 85 0 255 ≤ getAttenuation 128 84 0 255) := by
  have h84 : getAttenuation 128 84 0 255 = 2 := by
    rw [getAttenuation_eq_closed 128 84 0 255 (by norm_num) (by norm_num)
      (feas_rat (by norm_num) (by decide)) (by norm_num) (by decide)]
    decide
  have h85 : getAttenuation 128 85 0 255 = 255 := by
    rw [getAttenuation_eq_closed 128 85 0 255 (by norm_num) (by norm_num)
      (feas_rat (by norm_num) (by decide)) (by norm_num) (by decide)]
    decide
  exact ⟨by norm_num, by norm_num, feas_rat (by norm_num) (by decide), by decide,
    by norm_num, by norm_num, h84, h85, by omega⟩

/-- C4 counterexample: for steps = 5, min_dB = 0, max_dB = 2 the original
claim's hypotheses hold (the derived coarseStepSize is 1 <= 4), but the
derived fineStepCount is 6 > 5 = steps, so getAttenuation at step 0 returns
the mute sentinel 223 and not maxDb * 2 = 4. -/
theorem getAttenuation_at_step_zero_cex :
    (1:ℕ) ≤ 5 ∧ (0:ℕ) < 2 ∧ (2:ℕ) ≤ 90 ∧ coarseStepSize (2 - 0) 5 ≤ 4 ∧
      getAttenuation 5 0 0 2 = 223 ∧ getAttenuation 5 0 0 2 ≠ 2 * 2 := by
  have h223 : getAttenuation 5 0 0 2 = 223 := by
    apply getAttenuation_mute_of_infeasible 5 0 0 2 (by norm_num) (by norm_num)
    refine Or.inl ?_
    rw [fineStepCountQ, (by decide : coarseStepSize (2 - 0) 5 = 1)]
    norm_num
  exact ⟨by norm_num, by norm_num, by norm_num, by decide, h223, by omega⟩

/-- C5 counterexample: steps = 28, min_dB = 200, max_dB = 255 is feasible
(coarseStepSize 3, fineStepCount 58/3 <= 28), but at selStep = steps the
value 2 * 200 = 400 does not fit the uint8_t return and getAttenuation
returns 144 = 400 mod 256 instead of min_dB * 2. -/
theorem getAttenuation_at_step_top_cex :
    (1:ℕ) ≤ 28 ∧ (200:ℕ) < 255 ∧ coarseStepSize (255 - 200) 28 ≤ 4 ∧
      fineStepCountQ (255 - 200) 28 ≤ ((28:ℕ) : ℚ) ∧
      getAttenuation 28 28 200 255 = 144 ∧
      getAttenuation 28 28 200 255 ≠ 200 * 2 := by
  have h144 : getAttenuation 28 28 200 255 = 144 := by
    rw [getAttenuation_eq_closed 28 28 200 255 (by norm_num) (by norm_num)
      (feas_rat (by norm_num) (by decide)) (by norm_num) (by decide)]
    decide
  exact ⟨by norm_num, by norm_num, by decide, feas_rat (by norm_num) (by decide),
    h144, by omega⟩

/-- C6 counterexample: the valid profile steps = 3, min_dB = 0, max_dB = 5
passes the feasibility policy (coarseStepSize 3 <= 4, fineStepCount 8/3 <= 3),
but the derived fineStepCount equals 8/3, which is not an integer. -/
theorem fineStepCount_range_cex :
    (1:ℕ) ≤ 3 ∧ (0:ℕ) < 5 ∧ (5:ℕ) ≤ 90 ∧ coarseStepSize (5 - 0) 3 ≤ 4 ∧
      fineStepCountQ (5 - 0) 3 ≤ ((3:ℕ) : ℚ) ∧
      fineStepCountQ (5 - 0) 3 = 8/3 ∧
      ¬ ∃ n : ℤ, fineStepCountQ (5 - 0) 3 = (n : ℚ) := by
  have h83 : fineStepCountQ (5 - 0) 3 = 8/3 := by
    rw [fineStepCountQ, (by decide : coarseStepSize (5 - 0) 3 = 3)]
    norm_num
  refine ⟨by norm_num, by norm_num, by norm_num, by decide,
    feas_rat (by norm_num) (by decide), h83, ?_⟩
  rintro ⟨n, hn⟩
  rw [h83] at hn
  have h8 : (8:ℚ) = (n:ℚ) * 3 := (div_eq_iff (by norm_num)).mp hn
  have h8z : (8:ℤ) = n * 3 := by exact_mod_cast h8
  omega

/-! ### Witnesses -/

/-- Witness for C1 at steps = 60, selStep = 30, min_dB = 0, max_dB = 60. -/
theorem getAttenuation_formula_witness :
    (getAttenuation 60 30 0 60 : ℚ) =
      (((60:ℕ) : ℚ) - (min ((30:ℕ) : ℚ) (fineStepCountQ (60 - 0) 60)
          * ((coarseStepSize (60 - 0) 60 : ℚ) / 2)
        + max (((30:ℕ) : ℚ) - fineStepCountQ (60 - 0) 60) 0
          * (coarseStepSize (60 - 0) 60 : ℚ))) * 2 :=
  getAttenuation_formula 60 30 0 60 (by norm_num) (by norm_num) (by norm_num)
    (feas_rat (by norm_num) (by decide)) (by norm_num) (by decide)

/-- Witness for C2 at steps = 179, selStep = 0, min_dB = 0, max_dB = 90. -/
theorem getAttenuation_mute_iff_witness :
    getAttenuation 179 0 0 90 = 223 ↔
      (((179:ℕ) : ℚ) < fineStepCountQ (90 - 0) 179 ∨ (179:ℕ) < 0 ∨
        4 < coarseStepSize (90 - 0) 179) :=
  getAttenuation_mute_iff 179 0 0 90 (by norm_num) (by norm_num) (by norm_num)
    (by norm_num)

/-- Witness for C3 (amended) at steps = 60, min_dB = 0, max_dB = 60,
selected steps 20 <= 40. -/
theorem getAttenuation_antitone_witness :
    getAttenuation 60 40 0 60 ≤ getAttenuation 60 20 0 60 :=
  getAttenuation_antitone 60 20 40 0 60 (by norm_num) (by norm_num) (by norm_num)
    (feas_rat (by norm_num) (by decide)) (by decide) (by norm_num) (by norm_num)

/-- Witness for C4 (amended) at steps = 60, min_dB = 0, max_dB = 60. -/
theorem getAttenuation_at_step_zero_witness :
    getAttenuation 60 0 0 60 = 60 * 2 :=
  getAttenuation_at_step_zero 60 0 60 (by norm_num) (by norm_num) (by norm_num)
    (by decide) (feas_rat (by norm_num) (by decide))

/-- Witness for C5 (amended) at steps = 60, min_dB = 0, max_dB = 60. -/
theorem getAttenuation_at_step_top_witness :
    getAttenuation 60 60 0 60 = 0 * 2 :=
  getAttenuation_at_step_top 60 0 60 (by norm_num) (by norm_num) (by norm_num)
    (by decide) (feas_rat (by norm_num) (by decide))

/-- Witness for C6 (amended) at steps = 60, min_dB = 0, max_dB = 60. -/
theorem fineStepCount_range_witness :
    1 ≤ coarseStepSize (60 - 0) 60 ∧ 0 ≤ fineStepCountQ (60 - 0) 60 ∧
      fineStepCountQ (60 - 0) 60 ≤ ((60:ℕ) : ℚ) :=
  fineStepCount_range 60 0 60 (by norm_num) (by norm_num) (by norm_num)
    (by decide) (feas_rat (by norm_num) (by decide))

/-- Witness for C8 at steps = 60, selStep = 0, min_dB = 0, max_dB = 60. -/
theorem getAttenuation_deterministic_witness :
    getAttenuation 60 0 0 60 = getAttenuation 60 0 0 60 :=
  getAttenuation_deterministic 60 0 0 60 60 0 0 60 rfl rfl rfl rfl

/-- Witness for C9 at steps = 10, selStep = 3, min_dB = max_dB = 25. -/
theorem getAttenuation_degenerate_range_witness :
    coarseStepSize (25 - 25) 10 = 1 ∧
      fineStepCountQ (25 - 25) 10 = 2 * ((10:ℕ) : ℚ) ∧
      getAttenuation 10 3 25 25 = 223 :=
  getAttenuation_degenerate_range 10 3 25 (by norm_num)

/-- Witness for C10 at steps = 60, selStep = 30, min_dB = 0, max_dB = 60. -/
theorem getAttenuation_code_in_range_witness :
    2 * 0 ≤ getAttenuation 60 30 0 60 ∧ getAttenuation 60 30 0 60 ≤ 2 * 60 ∧
      getAttenuation 60 30 0 60 ≤ 180 ∧ getAttenuation 60 30 0 60 ≠ 223 :=
  getAttenuation_code_in_range 60 30 0 60 (by norm_num) (by norm_num) (by norm_num)
    (feas_rat (by norm_num) (by decide)) (by norm_num) (by decide)

end Mezmerize

